import Mathlib

/-!
Shallow embedding of `loto.py` (repository cdubos-fr/loto).

Python strings are modelled as lists of characters (`PyStr`), Python `int`
values as `Int`, raised exceptions as the `Except PyStr` monad (the payload
names the Python exception class), and `None` as `Option`.  Every definition
below is translated from the source file; the few places where a definition
models a library routine used by the source (`str.split`, `int(...)`,
`datetime.strptime`, `random.sample`) are marked in their doc comments.
-/

deriving instance DecidableEq for Except

/-- Model of a Python `str`: its list of characters. -/
abbrev PyStr := List Char

/-- Convert a Lean string literal to the `PyStr` model. -/
def ch (s : String) : PyStr := s.toList

/-- Model of splitting a Python string on a one-character separator,
as in `s.split("-")`: `"".split(c)` gives `[""]`, and separators at the
ends produce empty fields. -/
def splitOnChar (c : Char) : PyStr → List PyStr
  | [] => [[]]
  | x :: xs =>
    match splitOnChar c xs with
    | [] => [[]]
    | t :: ts => if x = c then [] :: t :: ts else (x :: t) :: ts

/-- Model of `sep.join(tokens)` for a one-character separator. -/
def joinChar (c : Char) : List PyStr → PyStr
  | [] => []
  | [t] => t
  | t :: ts => t ++ c :: joinChar c ts

/-- The character for a decimal digit value. -/
def digChar (d : Nat) : Char := Char.ofNat (48 + d)

/-- Decimal value of a digit character, `none` for non-digits. -/
def digitVal (c : Char) : Option Nat :=
  if '0' ≤ c ∧ c ≤ '9' then some (c.toNat - 48) else none

/-- Accumulating decimal parser over a list of characters. -/
def parseDigitsAux : Nat → PyStr → Option Nat
  | acc, [] => some acc
  | acc, c :: cs =>
    match digitVal c with
    | some d => parseDigitsAux (10 * acc + d) cs
    | none => none

/-- Parse a nonempty all-digit string as a natural number. -/
def parseDigits : PyStr → Option Nat
  | [] => none
  | s => parseDigitsAux 0 s

/-- Decimal digits of a natural number, most significant first
(fuel-driven so that it is structurally recursive). -/
def natToCharsAux : Nat → Nat → PyStr
  | 0, _ => []
  | fuel + 1, n =>
    if n < 10 then [digChar n]
    else natToCharsAux fuel (n / 10) ++ [digChar (n % 10)]

/-- Model of Python `str(n)` for a natural number. -/
def natToChars (n : Nat) : PyStr := natToCharsAux (n + 1) n

/-- Model of Python `str(i)` for an integer. -/
def intToChars (i : Int) : PyStr :=
  if i < 0 then '-' :: natToChars i.natAbs else natToChars i.natAbs

/-- Model of Python `int(s)` on the tokens this program feeds it: an
optional sign followed by decimal digits; anything else raises
`ValueError`, modelled as `none`. -/
def parseInt (s : PyStr) : Option Int :=
  match s with
  | [] => none
  | c :: rest =>
    if c = '-' then (parseDigits rest).map fun n => -(n : Int)
    else if c = '+' then (parseDigits rest).map fun n => (n : Int)
    else (parseDigits (c :: rest)).map fun n => (n : Int)

/-- Zero-padded decimal rendering, as produced by `strftime` field codes. -/
def padZero (w n : Nat) : PyStr :=
  List.replicate (w - (natToChars n).length) '0' ++ natToChars n

-- Dates ------------------------------------------------------------------

/-- Model of a `datetime` value as produced by `datetime.strptime` with the
date-only patterns of the source (time fields are always zero). -/
structure PyDate where
  year : Nat
  month : Nat
  day : Nat
deriving DecidableEq

/-- Leap-year rule of the proleptic Gregorian calendar used by `datetime`. -/
def isLeap (y : Nat) : Bool := (y % 4 = 0 && y % 100 ≠ 0) || y % 400 = 0

/-- Number of days of a month, as validated by the `datetime` constructor. -/
def daysInMonth (y m : Nat) : Nat :=
  if m = 2 then (if isLeap y then 29 else 28)
  else if m = 4 ∨ m = 6 ∨ m = 9 ∨ m = 11 then 30
  else 31

/-- Validity check performed by the `datetime` constructor. -/
def validDate (y m d : Nat) : Bool :=
  1 ≤ y && y ≤ 9999 && 1 ≤ m && m ≤ 12 && 1 ≤ d && d ≤ daysInMonth y m

/-- True when the string is nonempty and all characters are decimal digits. -/
def allDigits (s : PyStr) : Bool := s.all fun c => (digitVal c).isSome

/-- Parse a digit field whose length must lie in `[lo, hi]`, as matched by
one `%`-code of `strptime`. -/
def parseField (lo hi : Nat) (s : PyStr) : Option Nat :=
  if lo ≤ s.length ∧ s.length ≤ hi then parseDigits s else none

/-- Model of `datetime.strptime(s, fmt)` for the three format strings the
source uses (`%d/%m/%Y`, `%d/%m/%y`, `%Y%m%d`): `none` models the raised
`ValueError`.  For `%Y%m%d` the first greedy split of the digit string into
year (up to 4), month (up to 2) and day (up to 2) groups is taken, exactly
as the backtracking regular expression of CPython would; calendar validity
is checked afterwards without retrying other splits. -/
def strptime (s fmt : PyStr) : Option PyDate :=
  if fmt = ch "%d/%m/%Y" then
    match splitOnChar '/' s with
    | [d, m, y] =>
      match parseField 1 2 d, parseField 1 2 m, parseField 1 4 y with
      | some dv, some mv, some yv =>
        if validDate yv mv dv then some ⟨yv, mv, dv⟩ else none
      | _, _, _ => none
    | _ => none
  else if fmt = ch "%d/%m/%y" then
    match splitOnChar '/' s with
    | [d, m, y] =>
      match parseField 1 2 d, parseField 1 2 m, parseField 1 2 y with
      | some dv, some mv, some y2 =>
        let yv := if y2 ≤ 68 then 2000 + y2 else 1900 + y2
        if validDate yv mv dv then some ⟨yv, mv, dv⟩ else none
      | _, _, _ => none
    | _ => none
  else if fmt = ch "%Y%m%d" then
    if allDigits s then
      match [4, 3, 2, 1].findSome? (fun yl =>
          [2, 1].findSome? fun ml =>
            if yl + ml < s.length ∧ s.length ≤ yl + ml + 2 then some (yl, ml)
            else none) with
      | some (yl, ml) =>
        match parseDigits (s.take yl), parseDigits ((s.drop yl).take ml),
            parseDigits (s.drop (yl + ml)) with
        | some yv, some mv, some dv =>
          if validDate yv mv dv then some ⟨yv, mv, dv⟩ else none
        | _, _, _ => none
      | none => none
    else none
  else none

/-- Translation of `find_date_format`: the ordered list of date patterns the
source tries for a raw date string. -/
def find_date_format (getted_date : PyStr) : List PyStr :=
  (if getted_date.contains '/' then [ch "%d/%m/%Y", ch "%d/%m/%y"] else [])
    ++ [ch "%Y%m%d"]

/-- Translation of the date loop of `LotoFormat.extract_line`: each pattern
of `find_date_format` is tried in turn, a failed attempt is surfaced as a
recoverable warning, and the first success wins. -/
def parse_loto_date (getted_date : PyStr) : Option PyDate :=
  (find_date_format getted_date).findSome? (strptime getted_date)

-- LotoResult --------------------------------------------------------------

/-- Translation of the `LotoResult` named tuple: main numbers (`grid`),
bonus numbers (`chance`) and an optional draw date. -/
structure LotoResult where
  grid : List Int
  chance : List Int
  date : Option PyDate := none
deriving DecidableEq

/-- Model of Python `sorted` on a list of integers. -/
def pysorted (l : List Int) : List Int := l.insertionSort (· ≤ ·)

/-- Translation of `LotoResult.__eq__` restricted to two `LotoResult`
operands (`LotoResult.__eq__` raises on any other operand, see `lotoEq`):
equal-length grids are compared as sorted lists, otherwise the shorter
grid must be contained in the longer one; `chance` is never consulted. -/
def pyEq (a b : LotoResult) : Bool :=
  if a.grid.length = b.grid.length then decide (pysorted a.grid = pysorted b.grid)
  else if a.grid.length < b.grid.length then a.grid.all fun i => decide (i ∈ b.grid)
  else b.grid.all fun i => decide (i ∈ a.grid)

/-- Model of an arbitrary Python object handed to `__eq__`/`__ne__`:
either a `LotoResult` or a value of some other runtime type. -/
inductive PyObj where
  | lotoResult (r : LotoResult)
  | other (typeName : PyStr)

/-- Translation of `LotoResult.__eq__` including its `isinstance` guard:
a non-`LotoResult` operand makes it raise `NotImplementedError`. -/
def lotoEq (self : LotoResult) (other : PyObj) : Except PyStr Bool :=
  match other with
  | .lotoResult b => .ok (pyEq self b)
  | .other _ => .error (ch "NotImplementedError")

/-- Translation of `LotoResult.__ne__` including its `isinstance` guard. -/
def lotoNe (self : LotoResult) (other : PyObj) : Except PyStr Bool :=
  match other with
  | .lotoResult b => .ok (!pyEq self b)
  | .other _ => .error (ch "NotImplementedError")

/-- Translation of `LotoResult.__str__` (also used by `__repr__`):
`tirage=` followed by the sorted grid joined with `-`, a `+`, the sorted
chance numbers joined with `+`, and optionally ` le %d-%m-%Y`. -/
def lotoStr (r : LotoResult) : PyStr :=
  ch "tirage=" ++ joinChar '-' ((pysorted r.grid).map intToChars)
    ++ '+' :: joinChar '+' ((pysorted r.chance).map intToChars)
    ++ (match r.date with
        | some dt => ch " le " ++ padZero 2 dt.day ++ '-' :: padZero 2 dt.month
            ++ '-' :: padZero 4 dt.year
        | none => [])

/-- Modelled from the spec: the canonical string form of section 3,
`main-numbers-sorted-hyphen-joined + "+" + bonus-numbers-sorted-plus-joined`
for a dateless result.  It equals `lotoStr` minus the `tirage=` display
prefix. -/
def canonical_form (r : LotoResult) : PyStr :=
  joinChar '-' ((pysorted r.grid).map intToChars)
    ++ '+' :: joinChar '+' ((pysorted r.chance).map intToChars)

/-- Translation of `LotoResult.from_string`: partition on the first `+`,
split the first part on `-` and the remainder on `+`, and convert every
token with `int`; `none` models the raised `ValueError`. -/
def from_string (input_string : PyStr) : Option LotoResult :=
  match splitOnChar '+' input_string with
  | [] => none
  | g :: rest =>
    let chanceTokens := if rest.isEmpty then [[]] else rest
    match (splitOnChar '-' g).mapM parseInt, chanceTokens.mapM parseInt with
    | some grid, some chance => some ⟨grid, chance, none⟩
    | _, _ => none

-- LotoFormat --------------------------------------------------------------

/-- Translation of the class-attribute configuration of `LotoFormat` and its
subclasses.  `secondTirage` records which variant overrides `extract_line`
with the second-draw extraction (only `Loto5Boules` does). -/
structure LotoFormat where
  CHANCE_NB : Nat
  CHANCE_PREF : PyStr
  BOULES_NB : Nat
  BOULE_PREF : PyStr := ch "boule_"
  DATE_KEY : PyStr := ch "date_de_tirage"
  MAX : Nat := 49
  MAX_CHANCE : Nat := 10
  WHITELIST_BOULE : Option PyStr := none
  secondTirage : Bool := false
deriving DecidableEq

/-- Translation of `formatter`: prefix followed by the 1-based index. -/
def formatter (pref : PyStr) (idx : Nat) : PyStr := pref ++ natToChars idx

/-- Translation of `LotoFormat.boule_keys`. -/
def boule_keys (cfg : LotoFormat) : List PyStr :=
  if cfg.BOULES_NB = 1 then [cfg.BOULE_PREF]
  else (List.range' 1 cfg.BOULES_NB).map (formatter cfg.BOULE_PREF)

/-- Translation of `LotoFormat.chance_keys`. -/
def chance_keys (cfg : LotoFormat) : List PyStr :=
  if cfg.CHANCE_NB = 1 then [cfg.CHANCE_PREF]
  else (List.range' 1 cfg.CHANCE_NB).map (formatter cfg.CHANCE_PREF)

/-- Model of `re.match` for the one regular expression occurring in the
source, `boule_[1-5]_second_tirage`: `re.match` anchors at the start only,
so the pattern has to match a prefix of the key. -/
def matchesSecondPattern (key : PyStr) : Bool :=
  (List.range' 1 5).any fun i =>
    List.isPrefixOf (ch "boule_" ++ natToChars i ++ ch "_second_tirage") key

/-- Translation of `LotoFormat.whitelist`. -/
def whitelist (cfg : LotoFormat) (key : PyStr) : Bool :=
  match cfg.WHITELIST_BOULE with
  | none => false
  | some pat =>
    if pat = ch "boule_[1-5]_second_tirage" then matchesSecondPattern key
    else false

/-- Translation of the header branch of `LotoFormat.is_one`: every required
main and bonus key is present, and no header entry that starts with the
main or bonus column prefix is unaccounted for (neither required nor
whitelisted). -/
def is_one (cfg : LotoFormat) (header : List PyStr) : Bool :=
  (boule_keys cfg).all (fun boule => decide (boule ∈ header)) &&
  (chance_keys cfg).all (fun chance => decide (chance ∈ header)) &&
  decide ((header.filter fun h =>
      (List.isPrefixOf cfg.BOULE_PREF h || List.isPrefixOf cfg.CHANCE_PREF h) &&
      !(decide (h ∈ boule_keys cfg ++ chance_keys cfg)) &&
      !(whitelist cfg h)).length = 0)

/-- Translation of the `LotoResult` branch of `LotoFormat.is_one`: the
validity predicate used by the command-line lookup mode. -/
def is_one_result (cfg : LotoFormat) (to_compare : LotoResult) : Bool :=
  decide (to_compare.grid.dedup.length = cfg.BOULES_NB) &&
  decide (to_compare.chance.dedup.length = cfg.CHANCE_NB) &&
  to_compare.grid.all (fun i => decide (0 < i ∧ i ≤ (cfg.MAX : Int))) &&
  to_compare.chance.all (fun i => decide (0 < i ∧ i ≤ (cfg.MAX_CHANCE : Int)))

-- Rows and extraction -----------------------------------------------------

/-- Model of one csv data row as read by `csv.DictReader`: an association
list from column name to raw string value. -/
abbrev Row := List (PyStr × PyStr)

/-- Model of `line[key]` lookup without exceptions. -/
def rowGet (line : Row) (key : PyStr) : Option PyStr :=
  (line.find? fun kv => kv.1 == key).map fun kv => kv.2

/-- Model of `line[key]`: a missing key raises `KeyError`. -/
def rowGetE (line : Row) (key : PyStr) : Except PyStr PyStr :=
  match rowGet line key with
  | some v => .ok v
  | none => .error (ch "KeyError")

/-- Model of `int(s)` as an expression that raises `ValueError`. -/
def pyIntE (s : PyStr) : Except PyStr Int :=
  match parseInt s with
  | some i => .ok i
  | none => .error (ch "ValueError")

/-- Model of `int(line[key])`. -/
def getInt (line : Row) (key : PyStr) : Except PyStr Int := do
  pyIntE (← rowGetE line key)

/-- Translation of the shared `LotoFormat.extract_line`: read and convert
the values at every required main and bonus key (an unconvertible value or
missing key raises, uncaught here), then try each date pattern; the row is
dropped, with a warning per failed pattern, when no pattern parses the
date. -/
def extract_line (cfg : LotoFormat) (line : Row) : Except PyStr (List LotoResult) := do
  let grid ← (boule_keys cfg).mapM (getInt line)
  let chance ← (chance_keys cfg).mapM (getInt line)
  let loto_date ← rowGetE line cfg.DATE_KEY
  match parse_loto_date loto_date with
  | some dt => pure [⟨grid, chance, some dt⟩]
  | none => pure []

/-- Translation of the second-draw collection loop of
`Loto5Boules.extract_line`: the values of the columns
`boule_i_second_tirage` (1-based `i` up to `BOULES_NB`) that are present in
the row, in index order; a present but unconvertible value raises. -/
def extract_second (cfg : LotoFormat) (line : Row) : Except PyStr (List Int) :=
  (List.range' 1 cfg.BOULES_NB).foldlM
    (fun seq i =>
      match rowGet line (ch "boule_" ++ natToChars i ++ ch "_second_tirage") with
      | some v => (pyIntE v).map fun n => seq ++ [n]
      | none => pure seq)
    []

/-- Translation of the `Loto5Boules.extract_line` override: the shared
extraction runs first, and when second-draw columns are present an extra
dateless result with the same bonus numbers is appended. -/
def extract_line_second (cfg : LotoFormat) (line : Row) :
    Except PyStr (List LotoResult) := do
  let res ← extract_line cfg line
  let seq ← extract_second cfg line
  if seq.isEmpty then pure res
  else do
    let chance ← (chance_keys cfg).mapM (getInt line)
    pure (res ++ [⟨seq, chance, none⟩])

/-- Dispatch of the `extract_line` method on the runtime class of the
format object: `Loto5Boules` overrides it, the other variants inherit the
shared version. -/
def run_extract (cfg : LotoFormat) (line : Row) : Except PyStr (List LotoResult) :=
  if cfg.secondTirage then extract_line_second cfg line else extract_line cfg line

-- The three format variants ----------------------------------------------

/-- Translation of the `Loto5Boules` class attributes (Loto format since
2008). -/
def Loto5Boules : LotoFormat :=
  { CHANCE_PREF := ch "numero_chance"
    CHANCE_NB := 1
    BOULES_NB := 5
    WHITELIST_BOULE := some (ch "boule_[1-5]_second_tirage")
    secondTirage := true }

/-- Translation of the `Loto6Boules` class attributes (Loto format before
2008). -/
def Loto6Boules : LotoFormat :=
  { CHANCE_PREF := ch "boule_complementaire"
    CHANCE_NB := 1
    BOULES_NB := 6 }

/-- Translation of the `EuroMillion` class attributes. -/
def EuroMillion : LotoFormat :=
  { CHANCE_PREF := ch "etoile_"
    MAX_CHANCE := 12
    CHANCE_NB := 2
    BOULES_NB := 5
    MAX := 50 }

/-- Translation of `LOTO_FORMATS`, in dict insertion order (the order
`read_loto_file` iterates the values in). -/
def LOTO_FORMATS : List LotoFormat := [Loto5Boules, Loto6Boules, EuroMillion]

-- File reading ------------------------------------------------------------

/-- Model of an opened csv file: `decodeOk = false` stands for a byte
stream that raises `UnicodeDecodeError` as soon as the reader consumes it
(which happens inside the `try` block of `read_loto_file`); `header` is the
`fieldnames` row and `rows` the data rows as the `csv.DictReader` with the
registered semicolon delimiter yields them. -/
structure LotoFile where
  decodeOk : Bool
  header : List PyStr
  rows : List Row

/-- The file suffixes registered in `SUPPORTED_FORMATS`. -/
def SUPPORTED_SUFFIXES : List PyStr := [ch ".csv"]

/-- Translation of the header classification loop of `read_loto_file`:
first format in `LOTO_FORMATS` order whose `is_one` claims the header. -/
def classify (header : List PyStr) : Option LotoFormat :=
  LOTO_FORMATS.find? fun cfg => is_one cfg header

/-- Translation of `[i for i in data_cls(reader)]`: every row is extracted
in order and the per-row result lists are flattened; an exception in any
row aborts the whole comprehension. -/
def extract_all (cfg : LotoFormat) (rows : List Row) : Except PyStr (List LotoResult) :=
  (rows.mapM (run_extract cfg)).map List.flatten

/-- Body of the `try` block of `read_loto_file`: reading the header can
raise a decode error; then the first claiming format extracts all rows, and
a header claimed by no format yields a warning and no results. -/
def read_body (f : LotoFile) : Except PyStr (List LotoResult) :=
  if f.decodeOk then
    match classify f.header with
    | some cfg => extract_all cfg f.rows
    | none => pure []
  else .error (ch "UnicodeDecodeError")

/-- Translation of `read_loto_file`.  `opened` is the outcome of
`open(filename)`, which the source calls before entering its
`try`/`except`, so an open failure (for instance `FileNotFoundError`)
propagates; the suffix lookup `SUPPORTED_FORMATS[filename.suffix]` is also
outside the `try`, so an unregistered suffix raises `KeyError`; every
exception raised inside the `try` block is caught, printed, and turns the
file into an empty result list. -/
def read_loto_file (suffix : PyStr) (opened : Except PyStr LotoFile) :
    Except PyStr (List LotoResult) := do
  let f ← opened
  if suffix ∈ SUPPORTED_SUFFIXES then
    match read_body f with
    | .ok results => pure results
    | .error _ => pure []
  else .error (ch "KeyError")

-- Generation --------------------------------------------------------------

/-- Model of `random.sample(population, k)` for `k` not exceeding the
population size: the randomness source `rand` supplies one number per
step, reduced modulo the number of remaining elements to pick the next
index, and picked elements are removed so the sample has no repeats.  Any
selection-without-replacement procedure is realisable by a suitable
`rand`. -/
def pySample (rand : Nat → Nat) : List Int → Nat → Nat → List Int
  | _, 0, _ => []
  | pop, k + 1, step =>
    if pop.length = 0 then []
    else
      let idx := rand step % pop.length
      pop.getD idx 0 :: pySample rand (pop.eraseIdx idx) k (step + 1)

/-- Model of Python `range(a, a + n)` as a list of integers. -/
def rangeInt (a n : Nat) : List Int := (List.range' a n).map Int.ofNat

/-- Translation of `LotoFormat.generate`: sample `BOULES_NB` values from
`range(1, MAX + 1)` and `CHANCE_NB` values from `range(1, MAX_CHANCE + 1)`,
with no date.  `randG` and `randC` are the randomness consumed by the two
`random.sample` calls. -/
def generate (cfg : LotoFormat) (randG randC : Nat → Nat) : LotoResult :=
  ⟨pySample randG (rangeInt 1 cfg.MAX) cfg.BOULES_NB 0,
   pySample randC (rangeInt 1 cfg.MAX_CHANCE) cfg.CHANCE_NB 0,
   none⟩

/-- Model of `gen in results` for a list of `LotoResult`: Python evaluates
`item == gen` on each list element. -/
def pyIn (gen : LotoResult) (results : List LotoResult) : Bool :=
  results.any fun item => pyEq item gen

/-- Translation of `generate_tirage`: keep generating until the candidate
is not contained in `results`.  `cands i` is the result of the `i`-th call
of `loto_cls.generate()`, and `fuel` bounds the number of loop iterations
we inspect — `some` is returned exactly when the Python loop returns within
`fuel` iterations, the starting index being `i`. -/
def generate_tirage (results : List LotoResult) (cands : Nat → LotoResult) :
    Nat → Nat → Option LotoResult
  | _, 0 => none
  | i, fuel + 1 =>
    if pyIn (cands i) results then generate_tirage results cands (i + 1) fuel
    else some (cands i)


-- Concrete fixtures used by witnesses and counterexamples ---------------

/-- The header of a file of the five-ball variant with exactly the required
columns. -/
def header5 : List PyStr :=
  [ch "boule_1", ch "boule_2", ch "boule_3", ch "boule_4", ch "boule_5",
   ch "numero_chance", ch "date_de_tirage"]

/-- A well-formed five-ball data row. -/
def row_good : Row :=
  [(ch "boule_1", ch "1"), (ch "boule_2", ch "2"), (ch "boule_3", ch "3"),
   (ch "boule_4", ch "4"), (ch "boule_5", ch "5"), (ch "numero_chance", ch "6"),
   (ch "date_de_tirage", ch "20200101")]

/-- The same row with a non-numeric value at the required key `boule_1`. -/
def row_bad : Row :=
  [(ch "boule_1", ch "x"), (ch "boule_2", ch "2"), (ch "boule_3", ch "3"),
   (ch "boule_4", ch "4"), (ch "boule_5", ch "5"), (ch "numero_chance", ch "6"),
   (ch "date_de_tirage", ch "20200101")]

/-- The same row with a date no pattern can parse. -/
def row_baddate : Row :=
  [(ch "boule_1", ch "1"), (ch "boule_2", ch "2"), (ch "boule_3", ch "3"),
   (ch "boule_4", ch "4"), (ch "boule_5", ch "5"), (ch "numero_chance", ch "6"),
   (ch "date_de_tirage", ch "notadate")]

/-- A five-ball row that also carries the historical second-draw columns. -/
def row_second : Row :=
  row_good ++
  [(ch "boule_1_second_tirage", ch "7"), (ch "boule_2_second_tirage", ch "8"),
   (ch "boule_3_second_tirage", ch "9"), (ch "boule_4_second_tirage", ch "10"),
   (ch "boule_5_second_tirage", ch "11")]

/-- A five-ball row with second-draw columns whose date no pattern parses. -/
def row_second_baddate : Row :=
  row_baddate ++
  [(ch "boule_1_second_tirage", ch "7"), (ch "boule_2_second_tirage", ch "8"),
   (ch "boule_3_second_tirage", ch "9"), (ch "boule_4_second_tirage", ch "10"),
   (ch "boule_5_second_tirage", ch "11")]

/-- Modelled from the spec: the `claims(headerRow)` predicate in the words
of the specification — every required main and bonus key is present in the
header, and every header entry that starts with the main or bonus column
prefix is either one of the required keys or matches the whitelist
pattern. -/
def claims_spec (cfg : LotoFormat) (header : List PyStr) : Prop :=
  (∀ k ∈ boule_keys cfg, k ∈ header) ∧
  (∀ k ∈ chance_keys cfg, k ∈ header) ∧
  (∀ h ∈ header,
    (List.isPrefixOf cfg.BOULE_PREF h = true ∨ List.isPrefixOf cfg.CHANCE_PREF h = true) →
    h ∈ boule_keys cfg ++ chance_keys cfg ∨ whitelist cfg h = true)

-- Lemmas about the string model ------------------------------------------

theorem splitOnChar_ne_nil (c : Char) (s : PyStr) : splitOnChar c s ≠ [] := by
  cases s with
  | nil => simp [splitOnChar]
  | cons x xs =>
    simp only [splitOnChar]
    rcases h : splitOnChar c xs with _ | ⟨t, ts⟩
    · simp
    · by_cases hx : x = c <;> simp [hx]

theorem splitOnChar_of_not_mem {c : Char} {s : PyStr} (h : c ∉ s) :
    splitOnChar c s = [s] := by
  induction s with
  | nil => rfl
  | cons x xs ih =>
    simp only [List.mem_cons, not_or] at h
    have hxc : ¬x = c := fun hh => h.1 hh.symm
    simp only [splitOnChar, ih h.2, if_neg hxc]

theorem splitOnChar_append {c : Char} {xs : PyStr} (h : c ∉ xs) (ys : PyStr) :
    splitOnChar c (xs ++ c :: ys) = xs :: splitOnChar c ys := by
  induction xs with
  | nil =>
    simp only [List.nil_append, splitOnChar]
    rcases hy : splitOnChar c ys with _ | ⟨t, ts⟩
    · exact absurd hy (splitOnChar_ne_nil c ys)
    · simp
  | cons x xs ih =>
    simp only [List.mem_cons, not_or] at h
    have hxc : ¬x = c := fun hh => h.1 hh.symm
    simp only [List.cons_append, splitOnChar, List.append_eq]
    rw [ih h.2]
    simp only [if_neg hxc]

theorem splitOnChar_joinChar {c : Char} :
    ∀ {t : PyStr} {ts : List PyStr}, (∀ s ∈ t :: ts, c ∉ s) →
      splitOnChar c (joinChar c (t :: ts)) = t :: ts := by
  intro t ts
  induction ts generalizing t with
  | nil =>
    intro h
    exact splitOnChar_of_not_mem (h t (by simp))
  | cons u us ih =>
    intro h
    have ht : c ∉ t := h t (by simp)
    have hrest : ∀ s ∈ u :: us, c ∉ s := fun s hs => h s (by simp [hs])
    show splitOnChar c (t ++ c :: joinChar c (u :: us)) = t :: u :: us
    rw [splitOnChar_append ht, ih hrest]

theorem mem_joinChar {c x : Char} {ts : List PyStr}
    (h : x ∈ joinChar c ts) : x = c ∨ ∃ t ∈ ts, x ∈ t := by
  induction ts with
  | nil => simp [joinChar] at h
  | cons t us ih =>
    cases us with
    | nil =>
      exact Or.inr ⟨t, by simp, h⟩
    | cons u vs =>
      rcases List.mem_append.1 h with h1 | h2
      · exact Or.inr ⟨t, by simp, h1⟩
      · rcases List.mem_cons.1 h2 with h3 | h4
        · exact Or.inl h3
        · rcases ih h4 with h5 | ⟨w, hw, hxw⟩
          · exact Or.inl h5
          · exact Or.inr ⟨w, by simp [hw], hxw⟩

theorem natToCharsAux_congr (f₁ : Nat) :
    ∀ (f₂ n : Nat), n < f₁ → n < f₂ →
      natToCharsAux f₁ n = natToCharsAux f₂ n := by
  induction f₁ with
  | zero => exact fun f₂ n h1 _ => absurd h1 (Nat.not_lt_zero n)
  | succ g ih =>
    intro f₂ n h1 h2
    cases f₂ with
    | zero => exact absurd h2 (Nat.not_lt_zero n)
    | succ g₂ =>
      by_cases hn : n < 10
      · simp [natToCharsAux, hn]
      · have hdiv : n / 10 < n := Nat.div_lt_self (by omega) (by norm_num)
        simp only [natToCharsAux, if_neg hn]
        rw [ih g₂ (n / 10) (by omega) (by omega)]

theorem natToChars_eq (n : Nat) :
    natToChars n = if n < 10 then [digChar n]
      else natToChars (n / 10) ++ [digChar (n % 10)] := by
  by_cases hn : n < 10
  · simp [natToChars, natToCharsAux, hn]
  · have hdiv : n / 10 < n := Nat.div_lt_self (by omega) (by norm_num)
    have h2 : natToCharsAux (n + 1) n = natToCharsAux n (n / 10) ++ [digChar (n % 10)] := by
      simp only [natToCharsAux, if_neg hn]
    rw [if_neg hn]
    show natToCharsAux (n + 1) n = natToCharsAux (n / 10 + 1) (n / 10) ++ [digChar (n % 10)]
    rw [h2, natToCharsAux_congr n (n / 10 + 1) (n / 10) (by omega) (by omega)]

theorem natToChars_all_digits (n : Nat) :
    ∀ c ∈ natToChars n, ∃ d, d < 10 ∧ c = digChar d := by
  induction n using Nat.strong_induction_on with
  | _ n ih =>
    rw [natToChars_eq]
    by_cases hn : n < 10
    · simp only [if_pos hn, List.mem_singleton]
      exact fun c hc => ⟨n, hn, hc⟩
    · simp only [if_neg hn]
      intro c hc
      rcases List.mem_append.1 hc with h1 | h2
      · exact ih (n / 10) (Nat.div_lt_self (by omega) (by norm_num)) c h1
      · exact ⟨n % 10, Nat.mod_lt n (by norm_num), List.mem_singleton.1 h2⟩

theorem natToChars_ne_nil (n : Nat) : natToChars n ≠ [] := by
  rw [natToChars_eq]
  by_cases hn : n < 10 <;> simp [hn]

theorem digitVal_digChar {d : Nat} (h : d < 10) : digitVal (digChar d) = some d := by
  interval_cases d <;> decide

theorem digChar_ne_special {d : Nat} (h : d < 10) :
    digChar d ≠ '-' ∧ digChar d ≠ '+' := by
  interval_cases d <;> decide

theorem parseDigitsAux_append (acc : Nat) (s t : PyStr) :
    parseDigitsAux acc (s ++ t) =
      match parseDigitsAux acc s with
      | some a => parseDigitsAux a t
      | none => none := by
  induction s generalizing acc with
  | nil => simp [parseDigitsAux]
  | cons c cs ih =>
    simp only [List.cons_append, parseDigitsAux]
    rcases digitVal c with _ | d
    · rfl
    · exact ih _

theorem parseDigitsAux_natToChars (n : Nat) :
    ∀ acc, parseDigitsAux acc (natToChars n) =
      some (acc * 10 ^ (natToChars n).length + n) := by
  induction n using Nat.strong_induction_on with
  | _ n ih =>
    intro acc
    rw [natToChars_eq]
    by_cases hn : n < 10
    · simp [if_pos hn, parseDigitsAux, digitVal_digChar hn, Nat.mul_comm]
    · have hdiv : n / 10 < n := Nat.div_lt_self (by omega) (by norm_num)
      simp only [if_neg hn]
      rw [parseDigitsAux_append, ih (n / 10) hdiv acc]
      have hmod : n % 10 < 10 := Nat.mod_lt n (by norm_num)
      simp only [parseDigitsAux, digitVal_digChar hmod, List.length_append,
        List.length_singleton]
      congr 1
      generalize List.length (natToChars (n / 10)) = L
      have hp : acc * 10 ^ (L + 1) = acc * 10 ^ L * 10 := by ring
      rw [hp]
      generalize acc * 10 ^ L = M
      omega

theorem parseDigits_natToChars (n : Nat) : parseDigits (natToChars n) = some n := by
  have hne := natToChars_ne_nil n
  rcases h : natToChars n with _ | ⟨c, cs⟩
  · exact absurd h hne
  · have := parseDigitsAux_natToChars n 0
    rw [h] at this
    simpa [parseDigits] using this

theorem parseInt_natToChars (n : Nat) : parseInt (natToChars n) = some (n : Int) := by
  rcases h : natToChars n with _ | ⟨c, cs⟩
  · exact absurd h (natToChars_ne_nil n)
  · have hc : c ∈ natToChars n := by rw [h]; simp
    rcases natToChars_all_digits n c hc with ⟨d, hd, rfl⟩
    have hspec := digChar_ne_special hd
    simp only [parseInt, if_neg hspec.1, if_neg hspec.2]
    rw [← h, parseDigits_natToChars]
    rfl

theorem parseInt_intToChars {i : Int} (h : 0 ≤ i) : parseInt (intToChars i) = some i := by
  have hneg : ¬i < 0 := not_lt.2 h
  rw [intToChars, if_neg hneg, parseInt_natToChars]
  congr 1
  exact Int.natAbs_of_nonneg h

theorem not_mem_natToChars_special (n : Nat) :
    '-' ∉ natToChars n ∧ '+' ∉ natToChars n := by
  constructor <;> intro hmem <;>
    rcases natToChars_all_digits n _ hmem with ⟨d, hd, hc⟩
  · exact (digChar_ne_special hd).1 hc.symm
  · exact (digChar_ne_special hd).2 hc.symm

theorem not_mem_intToChars_plus {i : Int} (h : 0 ≤ i) : '+' ∉ intToChars i := by
  rw [intToChars, if_neg (not_lt.2 h)]
  exact (not_mem_natToChars_special _).2

theorem not_mem_intToChars_dash {i : Int} (h : 0 ≤ i) : '-' ∉ intToChars i := by
  rw [intToChars, if_neg (not_lt.2 h)]
  exact (not_mem_natToChars_special _).1


-- Lemmas about sorting and equality ---------------------------------------

theorem pysorted_perm (l : List Int) : (pysorted l).Perm l :=
  List.perm_insertionSort _ l

theorem pysorted_sorted (l : List Int) : List.Sorted (· ≤ ·) (pysorted l) :=
  List.sorted_insertionSort _ l

theorem pysorted_length (l : List Int) : (pysorted l).length = l.length :=
  (pysorted_perm l).length_eq

theorem pysorted_eq_of_perm {l₁ l₂ : List Int} (h : l₁.Perm l₂) :
    pysorted l₁ = pysorted l₂ :=
  List.eq_of_perm_of_sorted
    (((pysorted_perm l₁).trans h).trans (pysorted_perm l₂).symm)
    (pysorted_sorted l₁) (pysorted_sorted l₂)

theorem pysorted_idem (l : List Int) : pysorted (pysorted l) = pysorted l :=
  pysorted_eq_of_perm (pysorted_perm l)

theorem pysorted_eq_iff {l₁ l₂ : List Int} :
    pysorted l₁ = pysorted l₂ ↔ (l₁ : Multiset Int) = (l₂ : Multiset Int) := by
  constructor
  · intro h
    exact Multiset.coe_eq_coe.2
      (((pysorted_perm l₁).symm.trans (h ▸ (pysorted_perm l₂))))
  · intro h
    exact pysorted_eq_of_perm (Multiset.coe_eq_coe.1 h)

theorem pyEq_symm (a b : LotoResult) : pyEq a b = pyEq b a := by
  unfold pyEq
  rcases Nat.lt_trichotomy a.grid.length b.grid.length with h | h | h
  · rw [if_neg (by omega), if_pos h, if_neg (by omega), if_neg (by omega)]
  · rw [if_pos h, if_pos h.symm]
    simp [eq_comm]
  · rw [if_neg (by omega), if_neg (by omega), if_neg (by omega), if_pos h]

theorem pyEq_ignores_chance_date (g₁ g₂ c₁ c₂ : List Int) (d₁ d₂ : Option PyDate)
    (c₁' c₂' : List Int) (d₁' d₂' : Option PyDate) :
    pyEq ⟨g₁, c₁, d₁⟩ ⟨g₂, c₂, d₂⟩ = pyEq ⟨g₁, c₁', d₁'⟩ ⟨g₂, c₂', d₂'⟩ := rfl

-- Monadic helper lemmas ---------------------------------------------------

theorem exceptBind_ok {α β : Type} (a : α) (f : α → Except PyStr β) :
    (Except.ok a >>= f) = f a := rfl

theorem exceptBind_error {α β : Type} (e : PyStr) (f : α → Except PyStr β) :
    ((Except.error e : Except PyStr α) >>= f) = .error e := rfl

theorem mapM_except_error {α β : Type} (f : α → Except PyStr β) :
    ∀ (l : List α), (∃ a ∈ l, ∃ e, f a = .error e) → ∃ e, l.mapM f = .error e := by
  intro l
  induction l with
  | nil => rintro ⟨a, ha, _⟩; simp at ha
  | cons x xs ih =>
    rintro ⟨a, ha, e, he⟩
    rw [List.mapM_cons]
    cases hx : f x with
    | error e2 => exact ⟨e2, by rw [exceptBind_error]⟩
    | ok b =>
      rcases List.mem_cons.1 ha with rfl | hmem
      · rw [hx] at he; cases he
      · rcases ih ⟨a, hmem, e, he⟩ with ⟨e2, he2⟩
        refine ⟨e2, ?_⟩
        rw [exceptBind_ok, he2, exceptBind_error]

theorem read_loto_file_ok_eq (suffix : PyStr) (f : LotoFile) :
    read_loto_file suffix (.ok f) =
      if suffix ∈ SUPPORTED_SUFFIXES then
        match read_body f with
        | .ok results => .ok results
        | .error _ => .ok []
      else .error (ch "KeyError") := rfl

theorem read_loto_file_error_eq (suffix e : PyStr) :
    read_loto_file suffix (.error e) = .error e := rfl

theorem extract_line_ok_spec {cfg : LotoFormat} {line : Row} {g c : List Int}
    {d : PyStr}
    (hg : (boule_keys cfg).mapM (getInt line) = .ok g)
    (hc : (chance_keys cfg).mapM (getInt line) = .ok c)
    (hd : rowGetE line cfg.DATE_KEY = .ok d) :
    extract_line cfg line =
      match parse_loto_date d with
      | some dt => .ok [⟨g, c, some dt⟩]
      | none => .ok [] := by
  unfold extract_line
  rw [hg, exceptBind_ok, hc, exceptBind_ok, hd, exceptBind_ok]
  cases parse_loto_date d <;> rfl

theorem extract_line_error_of_bad_key {cfg : LotoFormat} {line : Row}
    (hbad : ∃ k ∈ boule_keys cfg ++ chance_keys cfg,
      ∃ v, rowGet line k = some v ∧ parseInt v = none) :
    ∃ e, extract_line cfg line = .error e := by
  rcases hbad with ⟨k, hk, v, hv, hpv⟩
  have hgk : getInt line k = .error (ch "ValueError") := by
    unfold getInt rowGetE pyIntE
    rw [hv]
    simp only [exceptBind_ok]
    rw [hpv]
  rcases List.mem_append.1 hk with hkb | hkc
  · rcases mapM_except_error (getInt line) (boule_keys cfg)
      ⟨k, hkb, _, hgk⟩ with ⟨e, he⟩
    refine ⟨e, ?_⟩
    unfold extract_line
    rw [he, exceptBind_error]
  · cases hgrid : (boule_keys cfg).mapM (getInt line) with
    | error e =>
      refine ⟨e, ?_⟩
      unfold extract_line
      rw [hgrid, exceptBind_error]
    | ok g =>
      rcases mapM_except_error (getInt line) (chance_keys cfg)
        ⟨k, hkc, _, hgk⟩ with ⟨e, he⟩
      refine ⟨e, ?_⟩
      unfold extract_line
      rw [hgrid, exceptBind_ok, he, exceptBind_error]

theorem run_extract_error {cfg : LotoFormat} {line : Row} {e : PyStr}
    (h : extract_line cfg line = .error e) :
    run_extract cfg line = .error e := by
  unfold run_extract
  by_cases hs : cfg.secondTirage
  · rw [if_pos hs]
    unfold extract_line_second
    rw [h, exceptBind_error]
  · rw [if_neg hs]
    exact h

theorem extract_all_cons_skip {cfg : LotoFormat} {line : Row} (rows : List Row)
    (h : run_extract cfg line = .ok []) :
    extract_all cfg (line :: rows) = extract_all cfg rows := by
  unfold extract_all
  rw [List.mapM_cons, h, exceptBind_ok]
  cases hrows : rows.mapM (run_extract cfg) with
  | error e => rfl
  | ok rss => rw [exceptBind_ok]; rfl

theorem extract_all_error_of_row {cfg : LotoFormat} {line : Row} {e : PyStr}
    (rows : List Row) (h : run_extract cfg line = .error e) :
    extract_all cfg (line :: rows) = .error e := by
  unfold extract_all
  rw [List.mapM_cons, h, exceptBind_error]
  rfl

-- Claim C1 ----------------------------------------------------------------

/-- C1 counterexample: two results with equal-length grids whose grids are
equal as sets (each contains the other elementwise) but which `__eq__`
declares unequal, because equal-length grids are compared as sorted lists
(multisets), not as sets: duplicates matter. -/
theorem claim_C1_counterexample :
    (⟨[1, 1, 2], [7], none⟩ : LotoResult).grid.length
        = (⟨[1, 2, 2], [7], none⟩ : LotoResult).grid.length ∧
    ((⟨[1, 1, 2], [7], none⟩ : LotoResult).grid.all
        fun x => decide (x ∈ (⟨[1, 2, 2], [7], none⟩ : LotoResult).grid)) = true ∧
    ((⟨[1, 2, 2], [7], none⟩ : LotoResult).grid.all
        fun x => decide (x ∈ (⟨[1, 1, 2], [7], none⟩ : LotoResult).grid)) = true ∧
    pyEq ⟨[1, 1, 2], [7], none⟩ ⟨[1, 2, 2], [7], none⟩ = false := by
  decide

/-- C1 (amended): for equal-length grids, `__eq__` holds iff the grids are
equal as multisets (sorted sequences coincide; this is set equality only
for duplicate-free grids); for different lengths it holds iff every main
number of the shorter-grid result occurs in the longer grid; the bonus
numbers and the date never influence the outcome. -/
theorem claim_C1 : ∀ a b : LotoResult,
    (a.grid.length = b.grid.length →
      (pyEq a b = true ↔ (a.grid : Multiset Int) = (b.grid : Multiset Int))) ∧
    (a.grid.length < b.grid.length →
      (pyEq a b = true ↔ ∀ x ∈ a.grid, x ∈ b.grid)) ∧
    (b.grid.length < a.grid.length →
      (pyEq a b = true ↔ ∀ x ∈ b.grid, x ∈ a.grid)) ∧
    (∀ c₁ c₂ d₁ d₂, pyEq ⟨a.grid, c₁, d₁⟩ ⟨b.grid, c₂, d₂⟩ = pyEq a b) := by
  intro a b
  refine ⟨?_, ?_, ?_, fun c₁ c₂ d₁ d₂ => rfl⟩
  · intro h
    simp only [pyEq, if_pos h, decide_eq_true_eq]
    exact pysorted_eq_iff
  · intro h
    simp only [pyEq, if_neg (by omega : ¬a.grid.length = b.grid.length), if_pos h,
      List.all_eq_true, decide_eq_true_eq]
  · intro h
    simp only [pyEq, if_neg (by omega : ¬a.grid.length = b.grid.length),
      if_neg (by omega : ¬a.grid.length < b.grid.length),
      List.all_eq_true, decide_eq_true_eq]

/-- C1 witness: the equal-length branch of the amended claim applied to a
concrete pair of permuted grids. -/
theorem claim_C1_witness : pyEq ⟨[1, 2], [3], none⟩ ⟨[2, 1], [9], none⟩ = true :=
  ((claim_C1 ⟨[1, 2], [3], none⟩ ⟨[2, 1], [9], none⟩).1 rfl).mpr (by decide)

-- Claim C9 ----------------------------------------------------------------

/-- C9 counterexample: comparing a `LotoResult` with a value of another
runtime type raises `NotImplementedError` instead of being a total,
type-safe comparison. -/
theorem claim_C9_counterexample :
    lotoEq ⟨[1, 2, 3, 4, 5], [6], none⟩ (PyObj.other (ch "str"))
      = .error (ch "NotImplementedError") := rfl

/-- C9 (amended): `__eq__` and `__ne__` are total only between two
`LotoResult` values; on any operand of another runtime type both raise
`NotImplementedError` (they are not total, type-safe functions). -/
theorem claim_C9 : ∀ (r : LotoResult) (x : PyObj),
    (∀ t, x = PyObj.other t →
      lotoEq r x = .error (ch "NotImplementedError") ∧
      lotoNe r x = .error (ch "NotImplementedError")) ∧
    (∀ b, x = PyObj.lotoResult b →
      lotoEq r x = .ok (pyEq r b) ∧ lotoNe r x = .ok (!pyEq r b)) := by
  intro r x
  constructor
  · rintro t rfl; exact ⟨rfl, rfl⟩
  · rintro b rfl; exact ⟨rfl, rfl⟩

/-- C9 witness: both branches of the amended claim at concrete operands. -/
theorem claim_C9_witness :
    lotoEq ⟨[1], [2], none⟩ (PyObj.other (ch "int"))
        = .error (ch "NotImplementedError") ∧
    lotoNe ⟨[1], [2], none⟩ (PyObj.other (ch "int"))
        = .error (ch "NotImplementedError") :=
  (claim_C9 ⟨[1], [2], none⟩ (PyObj.other (ch "int"))).1 (ch "int") rfl

-- Claim C5 ----------------------------------------------------------------

/-- C5 counterexample: a missing file makes `open(filename)` raise before
the `try` block of `read_loto_file` is entered, so the error propagates out
of `read_loto_file` instead of being caught and turned into an empty
sequence. -/
theorem claim_C5_counterexample :
    read_loto_file (ch ".csv") (.error (ch "FileNotFoundError"))
      = .error (ch "FileNotFoundError") := rfl

/-- C5 (amended): once the file is opened and its suffix is registered,
`read_loto_file` never propagates an error: decode failures and any
extraction error are caught (and printed) and yield an empty sequence, and
a header claimed by no schema yields a warning and an empty sequence; but
an `open` failure (missing file) or an unregistered suffix raises outside
the `try` block and propagates out of `read_loto_file`. -/
theorem claim_C5 : ∀ (f : LotoFile) (e suffix : PyStr),
    (∃ results, read_loto_file (ch ".csv") (.ok f) = .ok results) ∧
    (read_loto_file suffix (.error e) = .error e) ∧
    (suffix ∉ SUPPORTED_SUFFIXES →
      read_loto_file suffix (.ok f) = .error (ch "KeyError")) ∧
    (f.decodeOk = false → read_loto_file (ch ".csv") (.ok f) = .ok []) ∧
    (f.decodeOk = true → classify f.header = none →
      read_loto_file (ch ".csv") (.ok f) = .ok []) := by
  intro f e suffix
  have hcsv : ch ".csv" ∈ SUPPORTED_SUFFIXES := by decide
  refine ⟨?_, read_loto_file_error_eq suffix e, ?_, ?_, ?_⟩
  · rw [read_loto_file_ok_eq, if_pos hcsv]
    cases read_body f with
    | ok results => exact ⟨results, rfl⟩
    | error e2 => exact ⟨[], rfl⟩
  · intro hs
    rw [read_loto_file_ok_eq, if_neg hs]
  · intro hdec
    rw [read_loto_file_ok_eq, if_pos hcsv]
    unfold read_body
    rw [hdec]
    rfl
  · intro hdec hcl
    rw [read_loto_file_ok_eq, if_pos hcsv]
    unfold read_body
    rw [hdec, if_pos rfl, hcl]
    rfl

/-- C5 witness: the hypothesis-bearing branches of the amended claim at
concrete files. -/
theorem claim_C5_witness :
    read_loto_file (ch ".txt") (.ok ⟨true, header5, [row_good]⟩)
        = .error (ch "KeyError") ∧
    read_loto_file (ch ".csv") (.ok ⟨false, header5, [row_good]⟩) = .ok [] ∧
    read_loto_file (ch ".csv") (.ok ⟨true, [], [row_good]⟩) = .ok [] :=
  ⟨(claim_C5 ⟨true, header5, [row_good]⟩ (ch "E") (ch ".txt")).2.2.1 (by decide),
   (claim_C5 ⟨false, header5, [row_good]⟩ (ch "E") (ch ".txt")).2.2.2.1 rfl,
   (claim_C5 ⟨true, [], [row_good]⟩ (ch "E") (ch ".txt")).2.2.2.2 rfl (by decide)⟩

-- Claim C7 ----------------------------------------------------------------

/-- C7: whenever `generate_tirage` returns a candidate, that candidate is
equal (in the sense of `LotoResult.__eq__`) to no entry of the history it
was generated against. -/
theorem claim_C7 : ∀ (results : List LotoResult) (cands : Nat → LotoResult)
    (i fuel : Nat) (g : LotoResult),
    generate_tirage results cands i fuel = some g →
    ∀ h ∈ results, pyEq g h = false := by
  intro results cands i fuel
  induction fuel generalizing i with
  | zero => intro g hg; simp [generate_tirage] at hg
  | succ fuel ih =>
    intro g hg h hh
    simp only [generate_tirage] at hg
    by_cases hin : pyIn (cands i) results
    · rw [if_pos hin] at hg
      exact ih (i + 1) g hg h hh
    · rw [if_neg hin] at hg
      have hgc : cands i = g := Option.some.inj hg
      have hfalse : pyEq h (cands i) = false := by
        have := (List.any_eq_false.1 (by simpa [pyIn] using hin)) h hh
        simpa using this
      rw [← hgc, pyEq_symm]
      exact hfalse

/-- C7 witness: a concrete history and candidate stream on which the loop
returns, with the returned draw unequal to the one history entry. -/
theorem claim_C7_witness :
    generate_tirage [⟨[1, 2, 3, 4, 5], [6], none⟩]
        (fun _ => ⟨[7, 8, 9, 10, 11], [1], none⟩) 0 1
      = some ⟨[7, 8, 9, 10, 11], [1], none⟩ ∧
    pyEq ⟨[7, 8, 9, 10, 11], [1], none⟩ ⟨[1, 2, 3, 4, 5], [6], none⟩ = false :=
  ⟨by decide,
   claim_C7 [⟨[1, 2, 3, 4, 5], [6], none⟩]
     (fun _ => ⟨[7, 8, 9, 10, 11], [1], none⟩) 0 1
     ⟨[7, 8, 9, 10, 11], [1], none⟩ (by decide)
     ⟨[1, 2, 3, 4, 5], [6], none⟩ (by decide)⟩

-- Claim C2 ----------------------------------------------------------------

/-- C2: the header branch of `is_one` holds exactly when every required
main and bonus key is present and every header entry starting with the main
or bonus prefix is required or whitelisted; and the header with exactly
`boule_1`..`boule_5`, `numero_chance` and `date_de_tirage` is claimed by
the five-ball variant and by no other variant. -/
theorem claim_C2 :
    (∀ (cfg : LotoFormat) (header : List PyStr),
      is_one cfg header = true ↔ claims_spec cfg header) ∧
    is_one Loto5Boules header5 = true ∧
    is_one Loto6Boules header5 = false ∧
    is_one EuroMillion header5 = false := by
  refine ⟨?_, by decide, by decide, by decide⟩
  intro cfg header
  unfold is_one claims_spec
  simp only [Bool.and_eq_true, List.all_eq_true, decide_eq_true_eq,
    List.length_eq_zero, List.filter_eq_nil_iff, Bool.or_eq_true,
    Bool.not_eq_true', decide_eq_false_iff_not, Bool.not_eq_true]
  constructor
  · rintro ⟨⟨hb, hc⟩, hf⟩
    refine ⟨hb, hc, fun h hh hpre => ?_⟩
    have hfh := hf h hh
    rcases Bool.eq_false_or_eq_true (whitelist cfg h) with hwl | hwl
    · exact Or.inr hwl
    · by_cases hmem : h ∈ boule_keys cfg ++ chance_keys cfg
      · exact Or.inl hmem
      · exact absurd ⟨⟨hpre, hmem⟩, hwl⟩ hfh
  · rintro ⟨hb, hc, hw⟩
    refine ⟨⟨hb, hc⟩, fun h hh => ?_⟩
    rintro ⟨⟨hpre, hmem⟩, hwl⟩
    rcases hw h hh hpre with hk | ht
    · exact hmem hk
    · rw [ht] at hwl
      simp at hwl

-- Sampling lemmas ---------------------------------------------------------

theorem pySample_mem (rand : Nat → Nat) :
    ∀ (k : Nat) (pop : List Int) (step : Nat) (x : Int),
      x ∈ pySample rand pop k step → x ∈ pop := by
  intro k
  induction k with
  | zero => intro pop step x hx; simp [pySample] at hx
  | succ k ih =>
    intro pop step x hx
    simp only [pySample] at hx
    by_cases hp : pop.length = 0
    · rw [if_pos hp] at hx; simp at hx
    · rw [if_neg hp] at hx
      have hidx : rand step % pop.length < pop.length := Nat.mod_lt _ (by omega)
      rcases List.mem_cons.1 hx with h1 | h2
      · rw [h1, List.getD_eq_getElem pop 0 hidx]
        exact List.getElem_mem hidx
      · exact (List.eraseIdx_sublist pop _).mem (ih _ _ x h2)

theorem pySample_length (rand : Nat → Nat) :
    ∀ (k : Nat) (pop : List Int) (step : Nat), k ≤ pop.length →
      (pySample rand pop k step).length = k := by
  intro k
  induction k with
  | zero => intro pop step _; rfl
  | succ k ih =>
    intro pop step hk
    have hp : ¬pop.length = 0 := by omega
    have hidx : rand step % pop.length < pop.length := Nat.mod_lt _ (by omega)
    have hlen : (pop.eraseIdx (rand step % pop.length)).length = pop.length - 1 := by
      rw [List.length_eraseIdx, if_pos hidx]
    simp only [pySample, if_neg hp, List.length_cons]
    rw [ih _ (step + 1) (by omega)]

theorem pySample_nodup (rand : Nat → Nat) :
    ∀ (k : Nat) (pop : List Int) (step : Nat), pop.Nodup →
      (pySample rand pop k step).Nodup := by
  intro k
  induction k with
  | zero => intro pop step _; exact List.nodup_nil
  | succ k ih =>
    intro pop step hnd
    by_cases hp : pop.length = 0
    · simp [pySample, hp]
    · simp only [pySample, if_neg hp]
      have hidx : rand step % pop.length < pop.length := Nat.mod_lt _ (by omega)
      refine List.nodup_cons.2
        ⟨?_, ih _ _ (hnd.sublist (List.eraseIdx_sublist pop _))⟩
      intro hmem
      have hmem2 : pop.getD (rand step % pop.length) 0
          ∈ pop.eraseIdx (rand step % pop.length) :=
        pySample_mem rand k _ _ _ hmem
      rw [List.getD_eq_getElem pop 0 hidx] at hmem2
      rw [← hnd.erase_getElem _ hidx] at hmem2
      exact hnd.not_mem_erase hmem2

theorem rangeInt_length (a n : Nat) : (rangeInt a n).length = n := by
  simp [rangeInt]

theorem rangeInt_nodup (a n : Nat) : (rangeInt a n).Nodup :=
  (List.nodup_range' a n).map fun x y hxy => Int.ofNat.inj hxy

theorem rangeInt_mem {a n : Nat} {x : Int} (h : x ∈ rangeInt a n) :
    (a : Int) ≤ x ∧ x < (a : Int) + n := by
  simp only [rangeInt, List.mem_map] at h
  rcases h with ⟨m, hm, rfl⟩
  rw [List.mem_range'_1] at hm
  rw [Int.ofNat_eq_natCast]
  constructor
  · exact_mod_cast hm.1
  · exact_mod_cast hm.2

-- Claim C8 ----------------------------------------------------------------

/-- C8: for every schema variant and every outcome of the random source,
`generate` returns a dateless result whose grid is `BOULES_NB` pairwise
distinct integers in `[1, MAX]` and whose chance is `CHANCE_NB` pairwise
distinct integers in `[1, MAX_CHANCE]`. -/
theorem claim_C8 : ∀ cfg ∈ LOTO_FORMATS, ∀ (randG randC : Nat → Nat),
    ((generate cfg randG randC).grid.length = cfg.BOULES_NB ∧
     (generate cfg randG randC).grid.Nodup ∧
     ∀ x ∈ (generate cfg randG randC).grid, 1 ≤ x ∧ x ≤ (cfg.MAX : Int)) ∧
    ((generate cfg randG randC).chance.length = cfg.CHANCE_NB ∧
     (generate cfg randG randC).chance.Nodup ∧
     ∀ x ∈ (generate cfg randG randC).chance, 1 ≤ x ∧ x ≤ (cfg.MAX_CHANCE : Int)) ∧
    (generate cfg randG randC).date = none := by
  intro cfg hcfg randG randC
  have hbounds : cfg.BOULES_NB ≤ cfg.MAX ∧ cfg.CHANCE_NB ≤ cfg.MAX_CHANCE := by
    fin_cases hcfg <;> exact ⟨by decide, by decide⟩
  refine ⟨⟨?_, ?_, ?_⟩, ⟨?_, ?_, ?_⟩, rfl⟩
  · exact pySample_length randG _ _ 0 (by rw [rangeInt_length]; exact hbounds.1)
  · exact pySample_nodup randG _ _ 0 (rangeInt_nodup 1 cfg.MAX)
  · intro x hx
    have := rangeInt_mem (pySample_mem randG _ _ _ x hx)
    omega
  · exact pySample_length randC _ _ 0 (by rw [rangeInt_length]; exact hbounds.2)
  · exact pySample_nodup randC _ _ 0 (rangeInt_nodup 1 cfg.MAX_CHANCE)
  · intro x hx
    have := rangeInt_mem (pySample_mem randC _ _ _ x hx)
    omega

/-- C8 witness: the five-ball variant with a constant random source. -/
theorem claim_C8_witness :
    (generate Loto5Boules (fun _ => 0) (fun _ => 0)).grid.length = 5 ∧
    (generate Loto5Boules (fun _ => 0) (fun _ => 0)).date = none := by
  have h := claim_C8 Loto5Boules (by decide) (fun _ => 0) (fun _ => 0)
  exact ⟨h.1.1, h.2.2⟩

-- Claim C6 ----------------------------------------------------------------

/-- C6: on a row whose required values convert, whose date parses, and
which carries second-draw columns, the five-ball extraction returns the
shared result followed by one extra dateless result whose grid is the
second-draw numbers and whose chance is the same row's bonus numbers. -/
theorem claim_C6 : ∀ (line : Row) (g c seq : List Int) (d : PyStr) (dt : PyDate),
    (boule_keys Loto5Boules).mapM (getInt line) = .ok g →
    (chance_keys Loto5Boules).mapM (getInt line) = .ok c →
    rowGetE line Loto5Boules.DATE_KEY = .ok d →
    parse_loto_date d = some dt →
    extract_second Loto5Boules line = .ok seq →
    seq ≠ [] →
    run_extract Loto5Boules line = .ok [⟨g, c, some dt⟩, ⟨seq, c, none⟩] := by
  intro line g c seq d dt hg hc hd hdt hs hne
  have hie : seq.isEmpty = false := by
    cases seq
    · exact absurd rfl hne
    · rfl
  show extract_line_second Loto5Boules line = _
  unfold extract_line_second
  rw [extract_line_ok_spec hg hc hd, hdt, exceptBind_ok, hs, exceptBind_ok, hie,
    if_neg Bool.false_ne_true, hc, exceptBind_ok]
  rfl

/-- C6 witness: the claim applied to a concrete row with second-draw
columns. -/
theorem claim_C6_witness :
    run_extract Loto5Boules row_second =
      .ok [⟨[1, 2, 3, 4, 5], [6], some ⟨2020, 1, 1⟩⟩,
           ⟨[7, 8, 9, 10, 11], [6], none⟩] :=
  claim_C6 row_second [1, 2, 3, 4, 5] [6] [7, 8, 9, 10, 11]
    (ch "20200101") ⟨2020, 1, 1⟩
    (by decide) (by decide) (by decide) (by decide) (by decide) (by decide)

-- Claim C10 ---------------------------------------------------------------

/-- C10: on a five-ball row with second-draw columns whose date fails every
applicable pattern, the dateless second-draw result is still produced and
is the only result of the row: the dated primary draw is dropped. -/
theorem claim_C10 : ∀ (line : Row) (g c seq : List Int) (d : PyStr),
    (boule_keys Loto5Boules).mapM (getInt line) = .ok g →
    (chance_keys Loto5Boules).mapM (getInt line) = .ok c →
    rowGetE line Loto5Boules.DATE_KEY = .ok d →
    parse_loto_date d = none →
    extract_second Loto5Boules line = .ok seq →
    seq ≠ [] →
    run_extract Loto5Boules line = .ok [⟨seq, c, none⟩] := by
  intro line g c seq d hg hc hd hdt hs hne
  have hie : seq.isEmpty = false := by
    cases seq
    · exact absurd rfl hne
    · rfl
  show extract_line_second Loto5Boules line = _
  unfold extract_line_second
  rw [extract_line_ok_spec hg hc hd, hdt, exceptBind_ok, hs, exceptBind_ok, hie,
    if_neg Bool.false_ne_true, hc, exceptBind_ok]
  rfl

/-- C10 witness: the claim applied to a concrete second-draw row whose
date parses under no pattern. -/
theorem claim_C10_witness :
    run_extract Loto5Boules row_second_baddate =
      .ok [⟨[7, 8, 9, 10, 11], [6], none⟩] :=
  claim_C10 row_second_baddate [1, 2, 3, 4, 5] [6] [7, 8, 9, 10, 11]
    (ch "notadate")
    (by decide) (by decide) (by decide) (by decide) (by decide) (by decide)

-- Claim C4 ----------------------------------------------------------------

theorem read_body_true (header : List PyStr) (rows : List Row) :
    read_body ⟨true, header, rows⟩ =
      match classify header with
      | some cfg => extract_all cfg rows
      | none => .ok [] := rfl

/-- C4 counterexample: a non-numeric value at the required key `boule_1` in
the first row makes the whole file contribute zero results — the following
well-formed row is not processed — whereas the claim promises that the row
contributes zero results and processing continues with the next row. -/
theorem claim_C4_counterexample :
    read_loto_file (ch ".csv") (.ok ⟨true, header5, [row_bad, row_good]⟩)
        = .ok [] ∧
    read_loto_file (ch ".csv") (.ok ⟨true, header5, [row_good]⟩)
        = .ok [⟨[1, 2, 3, 4, 5], [6], some ⟨2020, 1, 1⟩⟩] :=
  ⟨by decide, by decide⟩

/-- C4 (amended): a date failing all applicable patterns is recoverable —
the shared extraction yields zero results for the row and, when the whole
row extraction yields zero results, processing continues identically with
the remaining rows; but a non-numeric value at a required main or bonus key
raises out of the row loop and is only caught at file level: the entire
file then yields an empty sequence, remaining rows included. -/
theorem claim_C4 : ∀ (cfg : LotoFormat) (line : Row) (rows : List Row)
    (header : List PyStr) (g c : List Int) (d : PyStr),
    ((boule_keys cfg).mapM (getInt line) = .ok g →
     (chance_keys cfg).mapM (getInt line) = .ok c →
     rowGetE line cfg.DATE_KEY = .ok d →
     parse_loto_date d = none →
     extract_line cfg line = .ok []) ∧
    (run_extract cfg line = .ok [] →
     classify header = some cfg →
     read_loto_file (ch ".csv") (.ok ⟨true, header, line :: rows⟩) =
       read_loto_file (ch ".csv") (.ok ⟨true, header, rows⟩)) ∧
    ((∃ k ∈ boule_keys cfg ++ chance_keys cfg,
        ∃ v, rowGet line k = some v ∧ parseInt v = none) →
     classify header = some cfg →
     read_loto_file (ch ".csv") (.ok ⟨true, header, line :: rows⟩) = .ok []) := by
  intro cfg line rows header g c d
  have hcsv : ch ".csv" ∈ SUPPORTED_SUFFIXES := by decide
  refine ⟨?_, ?_, ?_⟩
  · intro hg hc hd hdt
    rw [extract_line_ok_spec hg hc hd, hdt]
  · intro hrun hcl
    have hb1 : read_body ⟨true, header, line :: rows⟩ = extract_all cfg (line :: rows) := by
      rw [read_body_true, hcl]
    have hb2 : read_body ⟨true, header, rows⟩ = extract_all cfg rows := by
      rw [read_body_true, hcl]
    rw [read_loto_file_ok_eq, read_loto_file_ok_eq, if_pos hcsv, if_pos hcsv,
      hb1, hb2, extract_all_cons_skip rows hrun]
  · intro hbad hcl
    rcases extract_line_error_of_bad_key hbad with ⟨e, he⟩
    have hb1 : read_body ⟨true, header, line :: rows⟩ = .error e := by
      rw [read_body_true, hcl]
      exact extract_all_error_of_row rows (run_extract_error he)
    rw [read_loto_file_ok_eq, if_pos hcsv, hb1]

/-- C4 witness: the three branches of the amended claim at concrete rows —
a bad-date row is dropped while the rest of the file is processed, and a
non-numeric row empties the whole file. -/
theorem claim_C4_witness :
    extract_line Loto5Boules row_baddate = .ok [] ∧
    read_loto_file (ch ".csv") (.ok ⟨true, header5, [row_baddate, row_good]⟩) =
      read_loto_file (ch ".csv") (.ok ⟨true, header5, [row_good]⟩) ∧
    read_loto_file (ch ".csv") (.ok ⟨true, header5, [row_bad, row_good]⟩) = .ok [] :=
  ⟨(claim_C4 Loto5Boules row_baddate [] header5 [1, 2, 3, 4, 5] [6]
      (ch "notadate")).1 (by decide) (by decide) (by decide) (by decide),
   (claim_C4 Loto5Boules row_baddate [row_good] header5 [1, 2, 3, 4, 5] [6]
      (ch "notadate")).2.1 (by decide) (by decide),
   (claim_C4 Loto5Boules row_bad [row_good] header5 [] [] (ch "x")).2.2
     ⟨ch "boule_1", by decide, ch "x", by decide, by decide⟩ (by decide)⟩

-- Claim C3 ----------------------------------------------------------------

theorem optionBind_some {α β : Type} (a : α) (f : α → Option β) :
    (some a >>= f) = f a := rfl

theorem mapM_parseInt_map_intToChars :
    ∀ (l : List Int), (∀ x ∈ l, 0 ≤ x) →
      (l.map intToChars).mapM parseInt = some l := by
  intro l
  induction l with
  | nil => intro _; rfl
  | cons x xs ih =>
    intro h
    rw [List.map_cons, List.mapM_cons, parseInt_intToChars (h x (List.mem_cons_self x xs)),
      optionBind_some, ih (fun y hy => h y (List.mem_cons_of_mem x hy)), optionBind_some]
    rfl

/-- C3 counterexample: `from_string` cannot parse `str(r)` even for a
dateless result, because `__str__` prepends the display prefix `tirage=`,
whose characters make the first grid token non-numeric. -/
theorem claim_C3_counterexample :
    from_string (lotoStr ⟨[1, 2, 3, 4, 5], [6], none⟩) = none ∧
    lotoStr ⟨[1, 2, 3, 4, 5], [6], none⟩ = ch "tirage=1-2-3-4-5+6" :=
  ⟨by decide, by decide⟩

/-- C3 (amended): for a dateless result with nonempty grid and chance made
of nonnegative integers, parsing the section-3 canonical form — which is
`str(r)` with the `tirage=` display prefix removed — succeeds and yields a
result equal to `r` under the asymmetric set-inclusion equality (in both
directions). -/
theorem claim_C3 : ∀ r : LotoResult, r.date = none → r.grid ≠ [] → r.chance ≠ [] →
    (∀ x ∈ r.grid, 0 ≤ x) → (∀ x ∈ r.chance, 0 ≤ x) →
    lotoStr r = ch "tirage=" ++ canonical_form r ∧
    from_string (canonical_form r) = some ⟨pysorted r.grid, pysorted r.chance, none⟩ ∧
    pyEq ⟨pysorted r.grid, pysorted r.chance, none⟩ r = true ∧
    pyEq r ⟨pysorted r.grid, pysorted r.chance, none⟩ = true := by
  intro r hdate hg hc hgn hcn
  have hgn2 : ∀ x ∈ pysorted r.grid, 0 ≤ x := fun x hx =>
    hgn x ((pysorted_perm r.grid).mem_iff.1 hx)
  have hcn2 : ∀ x ∈ pysorted r.chance, 0 ≤ x := fun x hx =>
    hcn x ((pysorted_perm r.chance).mem_iff.1 hx)
  have hpg : pysorted r.grid ≠ [] := by
    intro hnil
    have hlen : r.grid.length = 0 := by
      rw [← pysorted_length r.grid, hnil]
      rfl
    exact hg (List.length_eq_zero.1 hlen)
  have hpc : pysorted r.chance ≠ [] := by
    intro hnil
    have hlen : r.chance.length = 0 := by
      rw [← pysorted_length r.chance, hnil]
      rfl
    exact hc (List.length_eq_zero.1 hlen)
  have hTgDash : ∀ t ∈ (pysorted r.grid).map intToChars, '-' ∉ t := by
    intro t ht
    rcases List.mem_map.1 ht with ⟨x, hx, rfl⟩
    exact not_mem_intToChars_dash (hgn2 x hx)
  have hTgPlus : ∀ t ∈ (pysorted r.grid).map intToChars, '+' ∉ t := by
    intro t ht
    rcases List.mem_map.1 ht with ⟨x, hx, rfl⟩
    exact not_mem_intToChars_plus (hgn2 x hx)
  have hTcPlus : ∀ t ∈ (pysorted r.chance).map intToChars, '+' ∉ t := by
    intro t ht
    rcases List.mem_map.1 ht with ⟨x, hx, rfl⟩
    exact not_mem_intToChars_plus (hcn2 x hx)
  have hmapg : ((pysorted r.grid).map intToChars).mapM parseInt
      = some (pysorted r.grid) := mapM_parseInt_map_intToChars _ hgn2
  have hmapc : ((pysorted r.chance).map intToChars).mapM parseInt
      = some (pysorted r.chance) := mapM_parseInt_map_intToChars _ hcn2
  rcases hTg : (pysorted r.grid).map intToChars with _ | ⟨tg, tgs⟩
  · rw [List.map_eq_nil_iff] at hTg
    exact absurd hTg hpg
  rcases hTc : (pysorted r.chance).map intToChars with _ | ⟨tc, tcs⟩
  · rw [List.map_eq_nil_iff] at hTc
    exact absurd hTc hpc
  rw [hTg] at hTgDash hTgPlus hmapg
  rw [hTc] at hTcPlus hmapc
  have hJoinPlus : '+' ∉ joinChar '-' (tg :: tgs) := by
    intro hmem
    rcases mem_joinChar hmem with h1 | ⟨t, ht, hmt⟩
    · exact absurd h1 (by decide)
    · exact hTgPlus t ht hmt
  have hsplitc : splitOnChar '+' (joinChar '+' (tc :: tcs)) = tc :: tcs :=
    splitOnChar_joinChar hTcPlus
  have hsplitg : splitOnChar '-' (joinChar '-' (tg :: tgs)) = tg :: tgs :=
    splitOnChar_joinChar hTgDash
  have hlen : (pysorted r.grid).length = r.grid.length := pysorted_length r.grid
  have heq1 : pyEq ⟨pysorted r.grid, pysorted r.chance, none⟩ r = true := by
    simp only [pyEq]
    rw [if_pos hlen]
    simp only [decide_eq_true_eq]
    exact pysorted_idem r.grid
  refine ⟨?_, ?_, heq1, ?_⟩
  · unfold lotoStr canonical_form
    rw [hdate]
    simp [List.append_assoc]
  · unfold from_string canonical_form
    rw [hTg, hTc, splitOnChar_append hJoinPlus, hsplitc]
    show (match (splitOnChar '-' (joinChar '-' (tg :: tgs))).mapM parseInt,
        (tc :: tcs).mapM parseInt with
      | some grid, some chance => some (⟨grid, chance, none⟩ : LotoResult)
      | _, _ => none) = _
    rw [hsplitg, hmapg, hmapc]
  · rw [pyEq_symm]
    exact heq1

/-- C3 witness: the amended claim at a concrete unsorted dateless result. -/
theorem claim_C3_witness :
    from_string (canonical_form ⟨[3, 1, 2], [5, 4], none⟩)
        = some ⟨pysorted [3, 1, 2], pysorted [5, 4], none⟩ ∧
    pyEq ⟨pysorted [3, 1, 2], pysorted [5, 4], none⟩ ⟨[3, 1, 2], [5, 4], none⟩
        = true :=
  ⟨(claim_C3 ⟨[3, 1, 2], [5, 4], none⟩ rfl (by decide) (by decide)
      (by decide) (by decide)).2.1,
   (claim_C3 ⟨[3, 1, 2], [5, 4], none⟩ rfl (by decide) (by decide)
      (by decide) (by decide)).2.2.1⟩
